import Mathlib

/-!
Verification of the SmartDocumentFormatter core
(`smartdoc_agent/utils/document_utils.py`): element inspection,
scope resolution, action dispatch, and the table editor.

Documents are modelled as lists of paragraphs, paragraphs as lists of
runs; the Python mutation of live paragraph objects becomes index-based
functional update of the document list.  Python `None`-able parameters
become `Option`; Python truthiness tests (`if x:`) are modelled by
explicit `truthy*` helpers, and `is not None` tests by `Option.isSome`.
-/

namespace SmartDoc

/-- Python truthiness of an optional string: `None` and `""` are falsy. -/
def truthyS : Option String → Bool
  | none => false
  | some s => s != ""

/-- Python truthiness of an optional number: `None` and `0` are falsy. -/
def truthyQ : Option ℚ → Bool
  | none => false
  | some q => q != 0

/-- Python truthiness of an optional bool: only `Some true` is truthy. -/
def truthyB : Option Bool → Bool
  | none => false
  | some b => b

/-- Value of a list of decimal digit characters. -/
def digitsToNat (cs : List Char) : Nat :=
  cs.foldl (fun a c => a * 10 + (c.toNat - 48)) 0

/-- Parse a nonempty all-digit character list, else `none`. -/
def parseNatDigits (cs : List Char) : Option Nat :=
  if cs ≠ [] ∧ cs.all Char.isDigit then some (digitsToNat cs) else none

/-- Model of Python `int(s)` on its sign-and-digits core: an optional
leading `-`/`+` followed by a nonempty digit string; anything else
raises `ValueError`, modelled as `none`. -/
def pyInt (s : String) : Option Int :=
  match s.data with
  | '-' :: rest => (parseNatDigits rest).map (fun n => -(n : Int))
  | '+' :: rest => (parseNatDigits rest).map (fun n => (n : Int))
  | cs => (parseNatDigits cs).map (fun n => (n : Int))

/-- Characters after the last occurrence of `sep` (the whole list when
`sep` does not occur): model of Python `s.split(sep)[-1]`. -/
def lastTokenL (sep : Char) (l : List Char) : List Char :=
  l.foldl (fun acc c => if c = sep then [] else acc ++ [c]) []

/-- Model of Python `s.split(sep)[-1]` on strings. -/
def lastToken (sep : Char) (s : String) : String := ⟨lastTokenL sep s.data⟩

/-- Model of Python `s.startswith(p)`. -/
def pyStartsWith (s p : String) : Bool := p.data.isPrefixOf s.data

/-- A text run: contiguous styled span.  `none` in a font field means
the attribute is inherited/unset. -/
structure Run where
  text : String
  font_name : Option String := none
  font_size : Option ℚ := none
  bold : Option Bool := none
  italic : Option Bool := none
  underline : Option Bool := none
deriving Repr, DecidableEq, Inhabited

/-- Paragraph-level format: spacing in points, line-spacing rule. -/
structure ParagraphFormat where
  space_before : Option ℚ := none
  space_after : Option ℚ := none
  line_spacing : Option ℚ := none
deriving Repr, DecidableEq, Inhabited

/-- A paragraph: optional style name, optional alignment, runs, format. -/
structure Paragraph where
  style : Option String := none
  alignment : Option String := none
  runs : List Run := []
  fmt : ParagraphFormat := {}
deriving Repr, DecidableEq, Inhabited

/-- `para.text`: concatenation of the run texts. -/
def paraText (p : Paragraph) : String := String.join (p.runs.map Run.text)

/-- Per-run analysis snapshot (`get_run_details`). -/
structure RunDetails where
  text : String
  font_name : Option String
  font_size : Option ℚ
  bold : Option Bool
  italic : Option Bool
  underline : Option Bool
deriving Repr, DecidableEq, Inhabited

/-- `get_run_details`: note `run.font.size.pt if run.font.size else None`
reports `none` for a (falsy) zero size. -/
def get_run_details (r : Run) : RunDetails :=
  { text := r.text
    font_name := r.font_name
    font_size := if truthyQ r.font_size then r.font_size else none
    bold := r.bold
    italic := r.italic
    underline := r.underline }

/-- Per-paragraph analysis record (`get_paragraph_details` result). -/
structure ParaInfo where
  paragraph_index : Nat
  text : String
  style_name : String
  alignment : Option String
  runs : List RunDetails
  type : String
  level : Option Int := none
deriving Repr, DecidableEq, Inhabited

/-- `get_paragraph_details`: classify a paragraph by style name.  A style
starting with `"Heading"` whose last space-separated token parses as an
int is a heading of that level; a failed parse degrades to
`type = "paragraph"`, `level = 0`; the exact style `"Title"` is a
level-0 heading; everything else is a plain paragraph with no level. -/
def get_paragraph_details (para : Paragraph) (para_index : Nat) : ParaInfo :=
  let tl : String × Option Int :=
    match para.style with
    | some s =>
      if pyStartsWith s "Heading" then
        match pyInt (lastToken ' ' s) with
        | some lvl => ("heading", some lvl)
        | none => ("paragraph", some 0)
      else if s = "Title" then ("heading", some 0)
      else ("paragraph", none)
    | none => ("paragraph", none)
  { paragraph_index := para_index
    text := paraText para
    style_name := para.style.getD "Default Paragraph Font"
    alignment := para.alignment
    runs := para.runs.map get_run_details
    type := tl.1
    level := tl.2 }

/-- `get_document_analysis`: the `"elements"` list, one record per
paragraph in document order. -/
def get_document_analysis (doc : List Paragraph) : List ParaInfo :=
  doc.mapIdx (fun i p => get_paragraph_details p i)

/-- Per-run body of `set_paragraph_font_properties`.  The name and size
guards are truthiness tests (`if font_name:`, `if size_pt:`), so `""`
and `0` are skipped like `None`; the three flags use `is not None`, so
an explicit `false` is written. -/
def setRunFont (font_name : Option String) (size_pt : Option ℚ)
    (bold italic underline : Option Bool) (r : Run) : Run :=
  { r with
    font_name := if truthyS font_name then font_name else r.font_name
    font_size := if truthyQ size_pt then size_pt else r.font_size
    bold := if (bold).isSome then bold else r.bold
    italic := if (italic).isSome then italic else r.italic
    underline := if (underline).isSome then underline else r.underline }

/-- `set_paragraph_font_properties`: apply font properties to all runs
of a paragraph. -/
def set_paragraph_font_properties (paragraph : Paragraph)
    (font_name : Option String := none) (size_pt : Option ℚ := none)
    (bold : Option Bool := none) (italic : Option Bool := none)
    (underline : Option Bool := none) : Paragraph :=
  { paragraph with
    runs := paragraph.runs.map (setRunFont font_name size_pt bold italic underline) }

/-- `set_paragraph_spacing_properties`: the guards here are `is not
None`, so an explicit `0` is applied. -/
def set_paragraph_spacing_properties (paragraph : Paragraph)
    (spacing_before_pt : Option ℚ := none) (spacing_after_pt : Option ℚ := none)
    (line_spacing_rule : Option ℚ := none) : Paragraph :=
  { paragraph with fmt :=
      { space_before := if (spacing_before_pt).isSome then spacing_before_pt
                        else paragraph.fmt.space_before
        space_after := if (spacing_after_pt).isSome then spacing_after_pt
                       else paragraph.fmt.space_after
        line_spacing := if (line_spacing_rule).isSome then line_spacing_rule
                        else paragraph.fmt.line_spacing } }

/-- The four members of `WD_ALIGN_PARAGRAPH` the dispatcher recognises. -/
def alignmentNames : List String := ["LEFT", "CENTER", "RIGHT", "JUSTIFY"]

/-- Model of Python `s.upper()` (ASCII). -/
def pyUpper (s : String) : String := ⟨s.data.map Char.toUpper⟩

/-- `set_paragraph_alignment_properties`: look the uppercased name up in
`WD_ALIGN_PARAGRAPH`; an unknown name is skipped with a warning. -/
def set_paragraph_alignment_properties (paragraph : Paragraph)
    (alignment : Option String := none) : Paragraph :=
  if truthyS alignment then
    let up := pyUpper (alignment.getD "")
    if alignmentNames.contains up then { paragraph with alignment := some up }
    else paragraph
  else paragraph

/-- Replace the element at index `n` by `f` of itself; out-of-range
indices leave the list unchanged (the resolver only produces in-range
indices, mirroring mutation of a live object). -/
def modifyAt {α : Type} (f : α → α) : List α → Nat → List α
  | [], _ => []
  | p :: ps, 0 => f p :: ps
  | p :: ps, n + 1 => p :: modifyAt f ps n

/-- `_get_target_paragraphs`: resolve a scope string to the (indices of
the) targeted paragraphs.  Absent/empty scope, an unparsable numeric
suffix, an out-of-range index and an unknown scope all give `[]`. -/
def _get_target_paragraphs (doc : List Paragraph)
    (elements_details : List ParaInfo) (scope : Option String) : List Nat :=
  if ¬ truthyS scope then []
  else
    let s := scope.getD ""
    if s = "all_paragraphs" then List.range doc.length
    else if pyStartsWith s "headings_level_" then
      match pyInt (lastToken '_' s) with
      | some level =>
        (elements_details.filter (fun el =>
          el.type == "heading" && el.level == some level
            && decide (el.paragraph_index < doc.length))).map ParaInfo.paragraph_index
      | none => []
    else if pyStartsWith s "paragraph_index_" then
      match pyInt (lastToken '_' s) with
      | some idx => if 0 ≤ idx ∧ idx < (doc.length : Int) then [idx.toNat] else []
      | none => []
    else if s = "all_body_paragraphs" then
      (elements_details.filter (fun el =>
        el.type == "paragraph" && decide (el.paragraph_index < doc.length))).map
        ParaInfo.paragraph_index
    else []

/-- Fold a per-paragraph update over the resolved target indices: model
of `for para in target_paras: mutate(para)`. -/
def applyToTargets (f : Paragraph → Paragraph) (doc : List Paragraph)
    (targets : List Nat) : List Paragraph :=
  targets.foldl (modifyAt f) doc

/-- `set_font` action record (`action.get(...)` fields). -/
structure SetFontAction where
  scope : Option String := none
  font_name : Option String := none
  size : Option ℚ := none
  bold : Option Bool := none
  italic : Option Bool := none
  underline : Option Bool := none
deriving Repr, DecidableEq, Inhabited

/-- `apply_set_font_action`: resolve the scope, then apply the font
fields to every run of every resolved paragraph (early return on an
empty resolution). -/
def apply_set_font_action (doc : List Paragraph)
    (elements_details : List ParaInfo) (action : SetFontAction) : List Paragraph :=
  let target_paras := _get_target_paragraphs doc elements_details action.scope
  if target_paras = [] then doc
  else applyToTargets (fun p => set_paragraph_font_properties p action.font_name
    action.size action.bold action.italic action.underline) doc target_paras

/-- `set_heading_style` action record. -/
structure SetHeadingStyleAction where
  level : Int
  font_name : Option String := none
  size : Option ℚ := none
  bold : Option Bool := none
  italic : Option Bool := none
  underline : Option Bool := none
  spacing_after : Option ℚ := none
deriving Repr, DecidableEq, Inhabited

/-- `apply_set_heading_style_action`: builds the scope string
`headings_level_<level>`, resolves it, and per heading applies the font
fields and then, when present, `spacing_after`. -/
def apply_set_heading_style_action (doc : List Paragraph)
    (elements_details : List ParaInfo) (action : SetHeadingStyleAction) :
    List Paragraph :=
  let scope := "headings_level_" ++ toString action.level
  let target_paras := _get_target_paragraphs doc elements_details (some scope)
  if target_paras = [] then doc
  else applyToTargets (fun p =>
    let p' := set_paragraph_font_properties p action.font_name action.size
      action.bold action.italic action.underline
    match action.spacing_after with
    | some sp => set_paragraph_spacing_properties p' none (some sp) none
    | none => p') doc target_paras

/-- `set_paragraph_spacing` action record. -/
structure SetParagraphSpacingAction where
  scope : Option String := none
  spacing_before : Option ℚ := none
  spacing_after : Option ℚ := none
  line_spacing : Option ℚ := none
deriving Repr, DecidableEq, Inhabited

/-- `apply_set_paragraph_spacing_action`. -/
def apply_set_paragraph_spacing_action (doc : List Paragraph)
    (elements_details : List ParaInfo) (action : SetParagraphSpacingAction) :
    List Paragraph :=
  let target_paras := _get_target_paragraphs doc elements_details action.scope
  if target_paras = [] then doc
  else applyToTargets (fun p => set_paragraph_spacing_properties p
    action.spacing_before action.spacing_after action.line_spacing) doc target_paras

/-- `set_alignment` action record. -/
structure SetAlignmentAction where
  scope : Option String := none
  alignment : Option String := none
deriving Repr, DecidableEq, Inhabited

/-- `apply_set_alignment_action`. -/
def apply_set_alignment_action (doc : List Paragraph)
    (elements_details : List ParaInfo) (action : SetAlignmentAction) :
    List Paragraph :=
  let target_paras := _get_target_paragraphs doc elements_details action.scope
  if target_paras = [] then doc
  else applyToTargets (fun p => set_paragraph_alignment_properties p
    action.alignment) doc target_paras

/-- `fix_font_inconsistencies` action record; an absent scope defaults
to `"all_paragraphs"` via `action.get("scope", "all_paragraphs")`. -/
structure FixFontAction where
  scope : Option String := some "all_paragraphs"
  target_font_name : Option String := none
  target_font_size : Option ℚ := none
deriving Repr, DecidableEq, Inhabited

/-- Per-run body of `apply_fix_font_inconsistencies_action`: overwrite
the font name when it differs from the target, and the size when it is
unset or differs. -/
def fixRunFont (target_font_name : Option String) (target_font_size_pt : Option ℚ)
    (r : Run) : Run :=
  let r1 := if truthyS target_font_name && r.font_name != target_font_name then
      { r with font_name := target_font_name } else r
  if truthyQ target_font_size_pt
      && (!truthyQ r1.font_size || r1.font_size != target_font_size_pt) then
    { r1 with font_size := target_font_size_pt } else r1

/-- `apply_fix_font_inconsistencies_action`: no-op when neither target
is supplied, else rewrites the runs of every resolved paragraph. -/
def apply_fix_font_inconsistencies_action (doc : List Paragraph)
    (elements_details : List ParaInfo) (action : FixFontAction) : List Paragraph :=
  if ¬ truthyS action.target_font_name ∧ ¬ truthyQ action.target_font_size then doc
  else
    let target_paras := _get_target_paragraphs doc elements_details action.scope
    if target_paras = [] then doc
    else
      let fixP : Paragraph → Paragraph := fun p =>
        let newRuns :=
          p.runs.map (fixRunFont action.target_font_name action.target_font_size)
        { p with runs := newRuns }
      applyToTargets fixP doc target_paras

/-- `find_and_replace` action record. -/
structure FindReplaceAction where
  find : Option String := none
  replace_with : Option String := none
deriving Repr, DecidableEq, Inhabited

/-- Case-insensitive prefix test on character lists. -/
def isPrefixCI : List Char → List Char → Bool
  | [], _ => true
  | _ :: _, [] => false
  | c :: cs, d :: ds => (c.toLower == d.toLower) && isPrefixCI cs ds

/-- Structural engine of `replaceCI`: the fuel bounds the number of
scan steps.  Each step consumes at least one character of the text, so
fuel equal to the text length never runs out (the zero-fuel fallback
returns the remaining text untouched and is unreachable from
`replaceCI` with a nonempty, caller-guarded `find`). -/
def replaceCIFuel (find repl : List Char) : Nat → List Char → List Char
  | _, [] => []
  | 0, l => l
  | fuel + 1, c :: cs =>
    if isPrefixCI find (c :: cs) then
      repl ++ replaceCIFuel find repl fuel (cs.drop (find.length - 1))
    else c :: replaceCIFuel find repl fuel cs

/-- Left-to-right replacement of all non-overlapping case-insensitive
occurrences of `find` by `repl`: model of
`re.compile(re.escape(find), re.IGNORECASE).subn(repl, text)`. -/
def replaceCI (find repl l : List Char) : List Char :=
  replaceCIFuel find repl l.length l

/-- Case-insensitive containment: model of
`find.lower() in text.lower()`. -/
def containsCI (find : List Char) : List Char → Bool
  | [] => isPrefixCI find []
  | c :: cs => isPrefixCI find (c :: cs) || containsCI find cs

/-- New text of one run under find/replace: the source first tests
`find_text.lower() in run.text.lower()` and assigns only when the
substitution count is positive, which never changes the result of the
substitution itself. -/
def findReplaceRunText (find repl text : String) : String :=
  if containsCI find.data text.data then
    ⟨replaceCI find.data repl.data text.data⟩
  else text

/-- `apply_find_and_replace_action`: skips when `find` is falsy or
`replace_with` is absent, else rewrites every run's text independently. -/
def apply_find_and_replace_action (doc : List Paragraph)
    (action : FindReplaceAction) : List Paragraph :=
  if ¬ truthyS action.find ∨ action.replace_with = none then doc
  else
    let replRun : Run → Run := fun r =>
      let newText :=
        findReplaceRunText (action.find.getD "") (action.replace_with.getD "") r.text
      { r with text := newText }
    doc.map (fun p => { p with runs := p.runs.map replRun })

/-- A table cell: its paragraphs (a fresh cell holds one empty
paragraph) and optional background shading (`w:shd` fill). -/
structure Cell where
  paragraphs : List Paragraph := [{}]
  shading : Option String := none
deriving Repr, DecidableEq, Inhabited

/-- python-docx `_Cell.text` setter: clear the cell content and leave a
single paragraph with a single run holding `t`. -/
def setCellText (c : Cell) (t : String) : Cell :=
  { c with paragraphs := [{ runs := [{ text := t }] }] }

/-- python-docx `_Cell.text` getter: newline-join of the paragraph
texts. -/
def cellTextVal (c : Cell) : String :=
  String.intercalate "\n" (c.paragraphs.map paraText)

/-- A table: grid of cells in row-major order, optional style, and the
regions merged so far (`start_cell.merge(end_cell)` is a library call;
it is modelled abstractly as recording the merged region). -/
structure Table where
  cells : List (List Cell)
  style : Option String := none
  merges : List (Int × Int × Int × Int) := []
deriving Repr, DecidableEq, Inhabited

/-- `len(table.rows)`. -/
def nRows (t : Table) : Nat := t.cells.length

/-- `len(table.columns)`. -/
def nCols (t : Table) : Nat := (t.cells.headD []).length

/-- The cell object at `(i, j)` (callers check bounds first). -/
def cellAt (t : Table) (i j : Nat) : Cell := (t.cells.getD i []).getD j {}

/-- Write back the cell at `(i, j)`. -/
def setCellAt (t : Table) (i j : Nat) (c : Cell) : Table :=
  { t with cells := modifyAt (fun row => modifyAt (fun _ => c) row j) t.cells i }

/-- `table.cell(i, j).text`, with an out-of-bounds access (a Python
`IndexError`) modelled as `none`. -/
def cellText (t : Table) (i j : Nat) : Option String :=
  if i < nRows t ∧ j < nCols t then some (cellTextVal (cellAt t i j)) else none

/-- `add_table`: returns `none` (failure) unless `rows > 0 ∧ cols > 0`;
otherwise builds a `rows × cols` grid of empty cells and, guarded by
`i < len(data)` and `j < len(data[i])`, sets cell `(i, j)` to
`str(data[i][j])` — excess data rows/columns are silently dropped and
cells without data stay empty.  `data = none` models Python
`data=None` (an empty list is equally falsy and populates nothing).
The source appends the table to the document and returns it; only the
returned table is modelled here. -/
def add_table (rows cols : Int) (data : Option (List (List String)) := none)
    (style : Option String := none) : Option Table :=
  if rows > 0 ∧ cols > 0 then
    let d := data.getD []
    let mkCell : Nat → Nat → Cell := fun i j =>
      if i < d.length ∧ j < (d.getD i []).length then
        setCellText {} ((d.getD i []).getD j "")
      else {}
    let grid := (List.range rows.toNat).map fun i =>
      (List.range cols.toNat).map fun j => mkCell i j
    some { cells := grid, style := style }
  else none

/-- `format_table_cell`: bounds-checked cell formatting.  Text is set
when present (`is not None`); font properties are applied only when
`any([font_name, font_size, bold, italic, underline])` is truthy — an
explicit `False` flag is falsy there; alignment and shading apply when
truthy.  All edits target the cell's first paragraph. -/
def format_table_cell (table : Table) (row col : Int)
    (text : Option String := none) (font_name : Option String := none)
    (font_size : Option ℚ := none) (bold : Option Bool := none)
    (italic : Option Bool := none) (underline : Option Bool := none)
    (alignment : Option String := none) (shading : Option String := none) :
    Bool × Table :=
  if (nRows table : Int) ≤ row ∨ (nCols table : Int) ≤ col ∨ row < 0 ∨ col < 0 then
    (false, table)
  else
    let i := row.toNat
    let j := col.toNat
    let c0 := cellAt table i j
    let c1 := if (text).isSome then setCellText c0 (text.getD "") else c0
    let anyFont := truthyS font_name || truthyQ font_size || truthyB bold
      || truthyB italic || truthyB underline
    let applyFont : Paragraph → Paragraph := fun p =>
      set_paragraph_font_properties p font_name font_size bold italic underline
    let c2 := if anyFont then
        { c1 with paragraphs := modifyAt applyFont c1.paragraphs 0 }
      else c1
    let applyAlign : Paragraph → Paragraph := fun p =>
      set_paragraph_alignment_properties p alignment
    let c3 := if truthyS alignment then
        { c2 with paragraphs := modifyAt applyAlign c2.paragraphs 0 }
      else c2
    let c4 := if truthyS shading then { c3 with shading := shading } else c3
    (true, setCellAt table i j c4)

/-- `merge_table_cells`: checks
`0 ≤ start_row ≤ end_row < len(rows)` and
`0 ≤ start_col ≤ end_col < len(columns)`; on violation returns `False`
without touching the table, otherwise performs the library merge
(recorded abstractly) and returns `True`. -/
def merge_table_cells (table : Table) (start_row start_col end_row end_col : Int) :
    Bool × Table :=
  if 0 ≤ start_row ∧ start_row ≤ end_row ∧ end_row < (nRows table : Int)
      ∧ 0 ≤ start_col ∧ start_col ≤ end_col ∧ end_col < (nCols table : Int) then
    (true, { table with
      merges := table.merges ++ [(start_row, start_col, end_row, end_col)] })
  else (false, table)

/-! ### Concrete fixtures used by end-to-end checks and witnesses -/

/-- Fixture: a Title-styled paragraph. -/
def fxTitle : Paragraph := { style := some "Title", runs := [{ text := "Doc" }] }

/-- Fixture: a level-1 heading paragraph. -/
def fxHeading : Paragraph := { style := some "Heading 1", runs := [{ text := "Intro" }] }

/-- Fixture: a body paragraph. -/
def fxBody : Paragraph := { style := some "Normal", runs := [{ text := "hello world" }] }

/-- Fixture: Title + Heading 1 + body document. -/
def fxDoc : List Paragraph := [fxTitle, fxHeading, fxBody]

/-- Fixture: one paragraph whose run has font size 12. -/
def fxSizeDoc : List Paragraph := [{ runs := [{ text := "x", font_size := some 12 }] }]

/-- Fixture: a `set_font` action carrying a negative size. -/
def fxSizeAct : SetFontAction := { scope := some "paragraph_index_0", size := some (-1) }

/-- Fixture: a `set_font` action supplying only `bold = true`. -/
def fxBoldAct : SetFontAction := { scope := some "all_paragraphs", bold := some true }

/-- Fixture: the table seed data of the spec's end-to-end table example. -/
def fxData : List (List String) := [["Name", "Age"], ["Alice", "30"], ["Bob", "24"]]

/-- Fixture: one paragraph whose text `"Hello"` is split across two
runs. -/
def fxSplitDoc : List Paragraph := [{ runs := [{ text := "Hel" }, { text := "lo" }] }]

/-- Fixture: a 2 × 2 table of empty cells. -/
def fxTable : Table := { cells := [[{}, {}], [{}, {}]] }

/-! ### Lemmas about the update combinators -/

theorem modifyAt_getElem? {α : Type} (f : α → α) (l : List α) (n i : Nat) :
    (modifyAt f l n)[i]? = if i = n then (l[i]?).map f else l[i]? := by
  induction l generalizing n i with
  | nil => simp [modifyAt]
  | cons p ps ih =>
    cases n with
    | zero =>
      cases i with
      | zero => simp [modifyAt]
      | succ k => simp [modifyAt]
    | succ m =>
      cases i with
      | zero => simp [modifyAt]
      | succ k => simpa [modifyAt] using ih m k

theorem modifyAt_length {α : Type} (f : α → α) (l : List α) (n : Nat) :
    (modifyAt f l n).length = l.length := by
  induction l generalizing n with
  | nil => rfl
  | cons p ps ih =>
    cases n with
    | zero => rfl
    | succ m => simpa [modifyAt] using ih m

theorem applyToTargets_length (f : Paragraph → Paragraph) (doc : List Paragraph)
    (ts : List Nat) : (applyToTargets f doc ts).length = doc.length := by
  induction ts generalizing doc with
  | nil => rfl
  | cons t ts ih =>
    show (applyToTargets f (modifyAt f doc t) ts).length = doc.length
    rw [ih, modifyAt_length]

theorem applyToTargets_getElem? {f : Paragraph → Paragraph}
    (hf : ∀ p, f (f p) = f p) (doc : List Paragraph) (ts : List Nat) (i : Nat) :
    (applyToTargets f doc ts)[i]? = if i ∈ ts then (doc[i]?).map f else doc[i]? := by
  induction ts generalizing doc with
  | nil => simp [applyToTargets]
  | cons t ts ih =>
    show (applyToTargets f (modifyAt f doc t) ts)[i]? = _
    rw [ih, modifyAt_getElem?]
    by_cases hts : i ∈ ts
    · by_cases hit : i = t
      · subst hit
        simp only [hts, if_pos, List.mem_cons, true_or, or_true, if_true]
        cases doc[i]? with
        | none => rfl
        | some p => simp [hf]
      · simp [hts, hit]
    · by_cases hit : i = t
      · subst hit; simp [hts]
      · simp [hts, hit, List.mem_cons]

theorem modifyAt_id_of {α : Type} (f : α → α) (l : List α) (n : Nat)
    (h : ∀ x, l[n]? = some x → f x = x) : modifyAt f l n = l := by
  induction l generalizing n with
  | nil => rfl
  | cons p ps ih =>
    cases n with
    | zero => simp [modifyAt, h p (by simp)]
    | succ m =>
      simp only [modifyAt, List.cons.injEq, true_and]
      exact ih m (fun x hx => h x (by simpa using hx))

theorem modifyAt_comm {α : Type} (f g : α → α) (hcomm : ∀ p, f (g p) = g (f p)) :
    ∀ (l : List α) (m n : Nat),
      modifyAt f (modifyAt g l m) n = modifyAt g (modifyAt f l n) m := by
  intro l
  induction l with
  | nil => intro m n; rfl
  | cons p ps ih =>
    intro m n
    cases m with
    | zero =>
      cases n with
      | zero => simp [modifyAt, hcomm]
      | succ k => simp [modifyAt]
    | succ j =>
      cases n with
      | zero => simp [modifyAt]
      | succ k => simp [modifyAt, ih]

theorem applyToTargets_modifyAt_comm {f g : Paragraph → Paragraph}
    (hcomm : ∀ p, f (g p) = g (f p)) (l : List Paragraph) (ts : List Nat) (n : Nat) :
    applyToTargets f (modifyAt g l n) ts = modifyAt g (applyToTargets f l ts) n := by
  induction ts generalizing l with
  | nil => rfl
  | cons t ts ih =>
    show applyToTargets f (modifyAt f (modifyAt g l n) t) ts = _
    rw [modifyAt_comm f g hcomm l n t]
    exact ih (modifyAt f l t)

theorem modifyAt_comp {α : Type} (f g : α → α) (l : List α) (n : Nat) :
    modifyAt (fun p => g (f p)) l n = modifyAt g (modifyAt f l n) n := by
  induction l generalizing n with
  | nil => rfl
  | cons p ps ih =>
    cases n with
    | zero => simp [modifyAt]
    | succ m => simp [modifyAt, ih]

theorem applyToTargets_comp {f g : Paragraph → Paragraph}
    (hcomm : ∀ p, f (g p) = g (f p)) (l : List Paragraph) (ts : List Nat) :
    applyToTargets (fun p => g (f p)) l ts
      = applyToTargets g (applyToTargets f l ts) ts := by
  induction ts generalizing l with
  | nil => rfl
  | cons t ts ih =>
    show applyToTargets (fun p => g (f p)) (modifyAt (fun p => g (f p)) l t) ts = _
    rw [modifyAt_comp, ih, applyToTargets_modifyAt_comm hcomm]
    rfl

/-! ### Lemmas about the string helpers -/

theorem isPrefixOf_append_right (l m k : List Char) (h : l.isPrefixOf m = true) :
    l.isPrefixOf (m ++ k) = true := by
  induction l generalizing m with
  | nil => simp
  | cons c cs ih =>
    cases m with
    | nil => simp at h
    | cons d ds =>
      rw [List.isPrefixOf_cons₂, Bool.and_eq_true] at h
      rw [List.cons_append, List.isPrefixOf_cons₂, Bool.and_eq_true]
      exact ⟨h.1, ih ds h.2⟩

theorem foldl_lastToken_no_sep (sep : Char) (l : List Char) (h : sep ∉ l)
    (acc : List Char) :
    l.foldl (fun acc c => if c = sep then [] else acc ++ [c]) acc = acc ++ l := by
  induction l generalizing acc with
  | nil => simp
  | cons c cs ih =>
    have hc : ¬ (c = sep) := fun hcs => h (hcs ▸ List.mem_cons_self c cs)
    have hcs : sep ∉ cs := fun hm => h (List.mem_cons_of_mem _ hm)
    simp [List.foldl_cons, hc, ih hcs]

theorem lastToken_append_of (sep : Char) (pre s : String)
    (hpre : lastTokenL sep pre.data = []) (hs : sep ∉ s.data) :
    lastToken sep (pre ++ s) = s := by
  show (⟨lastTokenL sep (pre ++ s).data⟩ : String) = s
  rw [String.data_append]
  have hsplit : lastTokenL sep (pre.data ++ s.data) = s.data := by
    rw [lastTokenL, List.foldl_append]
    rw [show pre.data.foldl (fun acc c => if c = sep then [] else acc ++ [c]) []
          = lastTokenL sep pre.data from rfl, hpre]
    simpa using foldl_lastToken_no_sep sep s.data hs []
  rw [hsplit]

theorem string_append_ne_of_length {a b : String} (s : String)
    (h : a.data.length + s.data.length ≠ b.data.length) : a ++ s ≠ b := by
  intro hab
  have := congrArg (fun t : String => t.data.length) hab
  simp only [String.data_append, List.length_append] at this
  exact h this

/-! ### Algebra of the paragraph mutators -/

theorem setRunFont_idem (fn : Option String) (sz : Option ℚ) (b i u : Option Bool)
    (r : Run) :
    setRunFont fn sz b i u (setRunFont fn sz b i u r) = setRunFont fn sz b i u r := by
  by_cases h1 : truthyS fn <;> by_cases h2 : truthyQ sz <;>
    by_cases h3 : (b).isSome <;> by_cases h4 : (i).isSome <;>
    by_cases h5 : (u).isSome <;> simp [setRunFont, h1, h2, h3, h4, h5]

theorem set_paragraph_font_properties_idem (p : Paragraph) (fn : Option String)
    (sz : Option ℚ) (b i u : Option Bool) :
    set_paragraph_font_properties
        (set_paragraph_font_properties p fn sz b i u) fn sz b i u
      = set_paragraph_font_properties p fn sz b i u := by
  simp only [set_paragraph_font_properties, List.map_map]
  congr 1
  exact List.map_congr_left (fun r _ => setRunFont_idem fn sz b i u r)

theorem font_spacing_comm (p : Paragraph) (fn : Option String) (sz : Option ℚ)
    (b i u : Option Bool) (sb sa ls : Option ℚ) :
    set_paragraph_font_properties (set_paragraph_spacing_properties p sb sa ls)
        fn sz b i u
      = set_paragraph_spacing_properties
          (set_paragraph_font_properties p fn sz b i u) sb sa ls := rfl

/-! ### Resolver characterizations -/

theorem resolver_all_paragraphs (doc : List Paragraph) (details : List ParaInfo) :
    _get_target_paragraphs doc details (some "all_paragraphs")
      = List.range doc.length := by
  have h1 : truthyS (some "all_paragraphs") = true := by decide
  simp [_get_target_paragraphs, h1]

theorem resolver_paragraph_index (doc : List Paragraph) (details : List ParaInfo)
    (s : String) (hs : '_' ∉ s.data) :
    _get_target_paragraphs doc details (some ("paragraph_index_" ++ s))
      = (match pyInt s with
         | some idx => if 0 ≤ idx ∧ idx < (doc.length : Int) then [idx.toNat] else []
         | none => []) := by
  have hlen : "paragraph_index_".data.length = 16 := by decide
  have hx : ("paragraph_index_" ++ s) ≠ "" := by
    apply string_append_ne_of_length
    rw [hlen]
    simp
  have htr : truthyS (some ("paragraph_index_" ++ s)) = true := by
    simp [truthyS, hx]
  have hne1 : ("paragraph_index_" ++ s) ≠ "all_paragraphs" := by
    apply string_append_ne_of_length
    rw [hlen, show "all_paragraphs".data.length = 14 from by decide]
    omega
  have hd : "paragraph_index_".data = 'p' :: "aragraph_index_".data := by decide
  have hnp1 : pyStartsWith ("paragraph_index_" ++ s) "headings_level_" = false := by
    rw [pyStartsWith, String.data_append, hd,
      show "headings_level_".data = 'h' :: "eadings_level_".data from by decide,
      List.cons_append, List.isPrefixOf_cons₂]
    simp [show ('h' == 'p') = false from by decide]
  have hp2 : pyStartsWith ("paragraph_index_" ++ s) "paragraph_index_" = true := by
    rw [pyStartsWith, String.data_append]
    exact isPrefixOf_append_right _ _ _ (by decide)
  have hlt : lastToken '_' ("paragraph_index_" ++ s) = s :=
    lastToken_append_of '_' _ s (by decide) hs
  simp only [_get_target_paragraphs, htr, Bool.not_eq_true, Bool.true_eq_false,
    if_false, Option.getD_some, hne1, if_neg, hnp1, hp2, if_true, hlt]
  simp [hne1]

/-! ### Claim theorems -/

/-- C3: resolving the scope `"all_paragraphs"` returns exactly
`count(doc.paragraphs)` elements, namely every paragraph of the
document in ascending index order, with no duplicates. -/
theorem resolve_all_paragraphs_complete (doc : List Paragraph)
    (details : List ParaInfo) :
    (_get_target_paragraphs doc details (some "all_paragraphs")).length
        = doc.length ∧
    (∀ i, i < doc.length →
      (_get_target_paragraphs doc details (some "all_paragraphs"))[i]? = some i) ∧
    (_get_target_paragraphs doc details (some "all_paragraphs")).Nodup := by
  rw [resolver_all_paragraphs]
  exact ⟨List.length_range doc.length,
    fun i hi => List.getElem?_range hi, List.nodup_range doc.length⟩

/-- Witness for C3 at the three-paragraph fixture document. -/
theorem resolve_all_paragraphs_complete_witness :
    (_get_target_paragraphs fxDoc (get_document_analysis fxDoc)
        (some "all_paragraphs")).length = fxDoc.length ∧
    (_get_target_paragraphs fxDoc (get_document_analysis fxDoc)
        (some "all_paragraphs"))[1]? = some 1 :=
  ⟨(resolve_all_paragraphs_complete fxDoc (get_document_analysis fxDoc)).1,
   (resolve_all_paragraphs_complete fxDoc (get_document_analysis fxDoc)).2.1 1
     (by decide)⟩

/-- C2: `"paragraph_index_<N>"` with `N` out of `[0, count)` or with an
unparsable suffix resolves to the empty list without raising; an
in-range `N` resolves to exactly the paragraph at position `N`; an
absent, empty or unknown scope resolves to the empty list; and every
dispatcher action whose scope resolves to the empty list leaves the
document unchanged. -/
theorem scope_resolution_failures (doc : List Paragraph) (details : List ParaInfo) :
    (∀ (s : String) (n : Int), '_' ∉ s.data → pyInt s = some n →
      (n < 0 ∨ (doc.length : Int) ≤ n) →
      _get_target_paragraphs doc details (some ("paragraph_index_" ++ s)) = []) ∧
    (∀ s : String, '_' ∉ s.data → pyInt s = none →
      _get_target_paragraphs doc details (some ("paragraph_index_" ++ s)) = []) ∧
    (∀ (s : String) (n : Int), '_' ∉ s.data → pyInt s = some n → 0 ≤ n →
      n < (doc.length : Int) →
      _get_target_paragraphs doc details (some ("paragraph_index_" ++ s))
        = [n.toNat]) ∧
    (_get_target_paragraphs doc details none = []) ∧
    (_get_target_paragraphs doc details (some "") = []) ∧
    (∀ s : String, s ≠ "all_paragraphs" →
      pyStartsWith s "headings_level_" = false →
      pyStartsWith s "paragraph_index_" = false → s ≠ "all_body_paragraphs" →
      _get_target_paragraphs doc details (some s) = []) ∧
    (∀ a : SetFontAction, _get_target_paragraphs doc details a.scope = [] →
      apply_set_font_action doc details a = doc) ∧
    (∀ a : SetHeadingStyleAction,
      _get_target_paragraphs doc details
          (some ("headings_level_" ++ toString a.level)) = [] →
      apply_set_heading_style_action doc details a = doc) ∧
    (∀ a : SetParagraphSpacingAction,
      _get_target_paragraphs doc details a.scope = [] →
      apply_set_paragraph_spacing_action doc details a = doc) ∧
    (∀ a : SetAlignmentAction, _get_target_paragraphs doc details a.scope = [] →
      apply_set_alignment_action doc details a = doc) ∧
    (∀ a : FixFontAction, _get_target_paragraphs doc details a.scope = [] →
      apply_fix_font_inconsistencies_action doc details a = doc) := by
  refine ⟨?_, ?_, ?_, ?_, ?_, ?_, ?_, ?_, ?_, ?_, ?_⟩
  · intro s n hs hp hout
    rw [resolver_paragraph_index doc details s hs, hp]
    have : ¬ (0 ≤ n ∧ n < (doc.length : Int)) := by omega
    simp [this]
  · intro s hs hp
    rw [resolver_paragraph_index doc details s hs, hp]
  · intro s n hs hp h0 hlt
    rw [resolver_paragraph_index doc details s hs, hp]
    simp [h0, hlt]
  · rfl
  · rfl
  · intro s h1 h2 h3 h4
    by_cases htr : truthyS (some s)
    · simp [_get_target_paragraphs, htr, h1, h2, h3, h4]
    · simp [_get_target_paragraphs, htr]
  · intro a h
    simp [apply_set_font_action, h]
  · intro a h
    simp [apply_set_heading_style_action, h]
  · intro a h
    simp [apply_set_paragraph_spacing_action, h]
  · intro a h
    simp [apply_set_alignment_action, h]
  · intro a h
    by_cases hg : ¬ truthyS a.target_font_name ∧ ¬ truthyQ a.target_font_size
    · simp [apply_fix_font_inconsistencies_action, hg]
    · simp [apply_fix_font_inconsistencies_action, hg, h]

/-- Witness for C2: out-of-range and unparsable indices on the fixture
document, and the resulting no-op of `set_font`. -/
theorem scope_resolution_failures_witness :
    _get_target_paragraphs fxDoc (get_document_analysis fxDoc)
        (some ("paragraph_index_" ++ "7")) = [] ∧
    _get_target_paragraphs fxDoc (get_document_analysis fxDoc)
        (some ("paragraph_index_" ++ "x")) = [] ∧
    _get_target_paragraphs fxDoc (get_document_analysis fxDoc)
        (some ("paragraph_index_" ++ "2")) = [2] ∧
    apply_set_font_action fxDoc (get_document_analysis fxDoc)
        { scope := some "bogus_scope", bold := some true } = fxDoc :=
  ⟨(scope_resolution_failures fxDoc (get_document_analysis fxDoc)).1 "7" 7
      (by decide) (by decide) (by decide),
   (scope_resolution_failures fxDoc (get_document_analysis fxDoc)).2.1 "x"
      (by decide) (by decide),
   (scope_resolution_failures fxDoc (get_document_analysis fxDoc)).2.2.1 "2" 2
      (by decide) (by decide) (by decide) (by decide),
   (scope_resolution_failures fxDoc (get_document_analysis fxDoc)).2.2.2.2.2.2.1
      { scope := some "bogus_scope", bold := some true } (by decide)⟩

/-- C1: the Element Inspector classification.  Style `"Title"` gives a
level-0 heading; `"Heading <N>"` with an integer suffix `N ≥ 0` gives a
heading of level `N`; a style starting with `"Heading"` whose suffix
fails to parse degrades to a plain paragraph with level 0 (no raise);
any other style gives a plain paragraph; `paragraph_index` equals the
position; and the Title + Heading 1 + body fixture analyzes to exactly
three records typed heading(0), heading(1), paragraph in order. -/
theorem elementInspector_classification :
    (∀ (p : Paragraph) (i : Nat), (get_paragraph_details p i).paragraph_index = i) ∧
    (∀ (p : Paragraph) (i : Nat), p.style = some "Title" →
      (get_paragraph_details p i).type = "heading" ∧
      (get_paragraph_details p i).level = some 0) ∧
    (∀ (p : Paragraph) (i : Nat) (s : String) (n : Int),
      p.style = some ("Heading " ++ s) → ' ' ∉ s.data → pyInt s = some n → 0 ≤ n →
      (get_paragraph_details p i).type = "heading" ∧
      (get_paragraph_details p i).level = some n) ∧
    (∀ (p : Paragraph) (i : Nat) (s : String), p.style = some s →
      pyStartsWith s "Heading" = true → pyInt (lastToken ' ' s) = none →
      (get_paragraph_details p i).type = "paragraph" ∧
      (get_paragraph_details p i).level = some 0) ∧
    (∀ (p : Paragraph) (i : Nat) (s : String), p.style = some s →
      pyStartsWith s "Heading" = false → s ≠ "Title" →
      (get_paragraph_details p i).type = "paragraph") ∧
    ((get_document_analysis fxDoc).map (fun e => (e.type, e.level))
      = [("heading", some 0), ("heading", some 1), ("paragraph", none)]) ∧
    ((get_document_analysis fxDoc).map ParaInfo.paragraph_index = [0, 1, 2]) := by
  refine ⟨?_, ?_, ?_, ?_, ?_, by decide, by decide⟩
  · intro p i
    simp [get_paragraph_details]
  · intro p i h
    have hT : pyStartsWith "Title" "Heading" = false := by decide
    constructor <;> simp [get_paragraph_details, h, hT]
  · intro p i s n h hsep hp h0
    have hsw : pyStartsWith ("Heading " ++ s) "Heading" = true := by
      rw [pyStartsWith, String.data_append]
      exact isPrefixOf_append_right _ _ _ (by decide)
    have hlt : lastToken ' ' ("Heading " ++ s) = s :=
      lastToken_append_of ' ' _ s (by decide) hsep
    constructor <;> simp [get_paragraph_details, h, hsw, hlt, hp]
  · intro p i s h hsw hp
    constructor <;> simp [get_paragraph_details, h, hsw, hp]
  · intro p i s h hsw hT
    simp [get_paragraph_details, h, hsw, hT]

/-- Witness for C1: the Title, Heading-1 and malformed-heading cases at
concrete paragraphs. -/
theorem elementInspector_classification_witness :
    ((get_paragraph_details fxTitle 0).type = "heading" ∧
      (get_paragraph_details fxTitle 0).level = some 0) ∧
    ((get_paragraph_details fxHeading 1).type = "heading" ∧
      (get_paragraph_details fxHeading 1).level = some 1) ∧
    ((get_paragraph_details { style := some "Heading foo" } 4).type = "paragraph" ∧
      (get_paragraph_details { style := some "Heading foo" } 4).level = some 0) ∧
    (get_paragraph_details fxBody 2).type = "paragraph" :=
  ⟨elementInspector_classification.2.1 fxTitle 0 rfl,
   elementInspector_classification.2.2.1 fxHeading 1 "1" 1 (by decide) (by decide)
     (by decide) (by decide),
   elementInspector_classification.2.2.2.1 { style := some "Heading foo" } 4
     "Heading foo" rfl (by decide) (by decide),
   elementInspector_classification.2.2.2.2.1 fxBody 2 "Normal" rfl (by decide)
     (by decide)⟩

/-- Per-index effect of `apply_set_font_action` on a targeted
paragraph. -/
theorem apply_set_font_action_getElem (doc : List Paragraph)
    (details : List ParaInfo) (a : SetFontAction) (i : Nat)
    (him : i ∈ _get_target_paragraphs doc details a.scope) :
    (apply_set_font_action doc details a)[i]? = (doc[i]?).map (fun p =>
      set_paragraph_font_properties p a.font_name a.size a.bold a.italic
        a.underline) := by
  have hne : _get_target_paragraphs doc details a.scope ≠ [] :=
    List.ne_nil_of_mem him
  simp only [apply_set_font_action, if_neg hne]
  rw [applyToTargets_getElem?
    (fun p => set_paragraph_font_properties_idem p a.font_name a.size a.bold
      a.italic a.underline), if_pos him]

/-- C4: a `set_font` action supplying only `bold = true` sets
`bold = true` on every run of every targeted paragraph and leaves the
runs' name, size, italic, underline (and text) unchanged; in general
each tri-state flag is written exactly when it is explicitly present,
and an explicit `false` is written (absent ≠ false). -/
theorem set_font_tristate_frame (doc : List Paragraph) (details : List ParaInfo)
    (a : SetFontAction) :
    (a.font_name = none → a.size = none → a.italic = none → a.underline = none →
      a.bold = some true →
      ∀ i ∈ _get_target_paragraphs doc details a.scope, ∀ p : Paragraph,
        doc[i]? = some p →
        (apply_set_font_action doc details a)[i]? =
          some { p with runs := p.runs.map (fun r => { r with bold := some true }) }) ∧
    (∀ i ∈ _get_target_paragraphs doc details a.scope, ∀ p : Paragraph,
      doc[i]? = some p →
      ∃ q : Paragraph, (apply_set_font_action doc details a)[i]? = some q ∧
        q.style = p.style ∧ q.alignment = p.alignment ∧ q.fmt = p.fmt ∧
        q.runs.length = p.runs.length ∧
        ∀ (j : Nat) (r : Run), p.runs[j]? = some r →
          ∃ r2 : Run, q.runs[j]? = some r2 ∧
          r2.text = r.text ∧
          (a.bold = none → r2.bold = r.bold) ∧
          (∀ b, a.bold = some b → r2.bold = some b) ∧
          (a.italic = none → r2.italic = r.italic) ∧
          (∀ b, a.italic = some b → r2.italic = some b) ∧
          (a.underline = none → r2.underline = r.underline) ∧
          (∀ b, a.underline = some b → r2.underline = some b)) := by
  constructor
  · intro hn hs hi hu hb i him p hp
    rw [apply_set_font_action_getElem doc details a i him, hp]
    have hfun : setRunFont a.font_name a.size a.bold a.italic a.underline
        = fun r => { r with bold := some true } := by
      funext r
      simp [setRunFont, hn, hs, hi, hu, hb, truthyS, truthyQ]
    simp [set_paragraph_font_properties, hfun]
  · intro i him p hp
    rw [apply_set_font_action_getElem doc details a i him, hp]
    refine ⟨_, rfl, rfl, rfl, rfl, by simp [set_paragraph_font_properties], ?_⟩
    intro j r hr
    refine ⟨setRunFont a.font_name a.size a.bold a.italic a.underline r, ?_, ?_⟩
    · simp [set_paragraph_font_properties, List.getElem?_map, hr]
    · refine ⟨rfl, ?_, ?_, ?_, ?_, ?_, ?_⟩
      · intro h; simp [setRunFont, h]
      · intro b h; simp [setRunFont, h]
      · intro h; simp [setRunFont, h]
      · intro b h; simp [setRunFont, h]
      · intro h; simp [setRunFont, h]
      · intro b h; simp [setRunFont, h]

/-- Witness for C4: setting only `bold = true` on the fixture body
paragraph. -/
theorem set_font_tristate_frame_witness :
    (apply_set_font_action fxDoc (get_document_analysis fxDoc) fxBoldAct)[2]? =
      some { fxBody with
        runs := fxBody.runs.map (fun r => { r with bold := some true }) } :=
  (set_font_tristate_frame fxDoc (get_document_analysis fxDoc) fxBoldAct).1
    rfl rfl rfl rfl rfl 2 (by decide) fxBody (by decide)

/-- Counterexample to C5 as stated: a `set_font` action with the
negative size `-1` is NOT ignored — the guard `if size_pt:` is a
truthiness test, so any nonzero size (negative included) is written to
the targeted runs, changing the fixture run's size from 12 to -1. -/
theorem set_font_negative_size_applied :
    (apply_set_font_action fxSizeDoc (get_document_analysis fxSizeDoc)
        fxSizeAct).map (fun p => p.runs.map Run.font_size) = [[some (-1)]] ∧
    ¬ (0 : ℚ) < -1 := by
  constructor
  · rfl
  · norm_num

/-- C5 (amended): a `set_font` size is applied to the targeted runs if
and only if it is present and nonzero — absent or zero sizes leave
every targeted run's size unchanged, while any nonzero size (including
a negative one) is written. -/
theorem set_font_size_truthiness (doc : List Paragraph) (details : List ParaInfo)
    (a : SetFontAction) :
    ∀ i ∈ _get_target_paragraphs doc details a.scope, ∀ p : Paragraph,
      doc[i]? = some p →
      ∃ q : Paragraph, (apply_set_font_action doc details a)[i]? = some q ∧
        ∀ (j : Nat) (r : Run), p.runs[j]? = some r →
          ∃ r2 : Run, q.runs[j]? = some r2 ∧
            (∀ qq : ℚ, a.size = some qq → qq ≠ 0 → r2.font_size = some qq) ∧
            ((a.size = none ∨ a.size = some 0) → r2.font_size = r.font_size) := by
  intro i him p hp
  rw [apply_set_font_action_getElem doc details a i him, hp]
  refine ⟨_, rfl, ?_⟩
  intro j r hr
  refine ⟨setRunFont a.font_name a.size a.bold a.italic a.underline r, ?_, ?_, ?_⟩
  · simp [set_paragraph_font_properties, List.getElem?_map, hr]
  · intro qq hqq hne
    simp [setRunFont, truthyQ, hqq, hne]
  · intro hza
    rcases hza with h | h <;> simp [setRunFont, truthyQ, h]

/-- Witness for C5's amended theorem at the fixture document and
action. -/
theorem set_font_size_truthiness_witness :
    ∃ q : Paragraph,
      (apply_set_font_action fxSizeDoc (get_document_analysis fxSizeDoc)
          fxSizeAct)[0]? = some q ∧
      ∀ (j : Nat) (r : Run),
        ({ runs := [{ text := "x", font_size := some 12 }] } :
            Paragraph).runs[j]? = some r →
        ∃ r2 : Run, q.runs[j]? = some r2 ∧
          (∀ qq : ℚ, fxSizeAct.size = some qq → qq ≠ 0 → r2.font_size = some qq) ∧
          ((fxSizeAct.size = none ∨ fxSizeAct.size = some 0) →
            r2.font_size = r.font_size) :=
  set_font_size_truthiness fxSizeDoc (get_document_analysis fxSizeDoc) fxSizeAct 0
    (by decide) { runs := [{ text := "x", font_size := some 12 }] } (by decide)

/-- C6: `set_heading_style` is `set_font` at the constructed scope
`headings_level_<level>`: with `spacing_after` absent the two leave the
document in identical states (and paragraph spacing is untouched); with
`spacing_after = sp` present the result equals applying that `set_font`
and then setting space-after to `sp` on each resolved heading. -/
theorem set_heading_style_refines_set_font (doc : List Paragraph)
    (details : List ParaInfo) (a : SetHeadingStyleAction) :
    (a.spacing_after = none →
      apply_set_heading_style_action doc details a
        = apply_set_font_action doc details
            { scope := some ("headings_level_" ++ toString a.level),
              font_name := a.font_name, size := a.size, bold := a.bold,
              italic := a.italic, underline := a.underline }) ∧
    (∀ sp : ℚ, a.spacing_after = some sp →
      apply_set_heading_style_action doc details a
        = applyToTargets
            (fun p => set_paragraph_spacing_properties p none (some sp) none)
            (apply_set_font_action doc details
              { scope := some ("headings_level_" ++ toString a.level),
                font_name := a.font_name, size := a.size, bold := a.bold,
                italic := a.italic, underline := a.underline })
            (_get_target_paragraphs doc details
              (some ("headings_level_" ++ toString a.level)))) ∧
    (a.spacing_after = none → ∀ i : Nat,
      ((apply_set_heading_style_action doc details a)[i]?).map Paragraph.fmt
        = (doc[i]?).map Paragraph.fmt) := by
  have hfmt : ∀ i : Nat,
      ((apply_set_font_action doc details
          { scope := some ("headings_level_" ++ toString a.level),
            font_name := a.font_name, size := a.size, bold := a.bold,
            italic := a.italic, underline := a.underline })[i]?).map Paragraph.fmt
        = (doc[i]?).map Paragraph.fmt := by
    intro i
    by_cases he : _get_target_paragraphs doc details
        (some ("headings_level_" ++ toString a.level)) = []
    · simp [apply_set_font_action, he]
    · simp only [apply_set_font_action, if_neg he]
      rw [applyToTargets_getElem? (fun p =>
        set_paragraph_font_properties_idem p a.font_name a.size a.bold a.italic
          a.underline)]
      by_cases him : i ∈ _get_target_paragraphs doc details
          (some ("headings_level_" ++ toString a.level))
      · simp only [him, if_pos]
        cases doc[i]? with
        | none => rfl
        | some p => rfl
      · simp [him]
  have hnone : a.spacing_after = none →
      apply_set_heading_style_action doc details a
        = apply_set_font_action doc details
            { scope := some ("headings_level_" ++ toString a.level),
              font_name := a.font_name, size := a.size, bold := a.bold,
              italic := a.italic, underline := a.underline } := by
    intro h
    simp only [apply_set_heading_style_action, apply_set_font_action, h]
  refine ⟨hnone, ?_, ?_⟩
  · intro sp h
    simp only [apply_set_heading_style_action, apply_set_font_action, h]
    by_cases he : _get_target_paragraphs doc details
        (some ("headings_level_" ++ toString a.level)) = []
    · simp [he, applyToTargets]
    · simp only [if_neg he]
      exact @applyToTargets_comp
        (fun p => set_paragraph_font_properties p a.font_name a.size a.bold
          a.italic a.underline)
        (fun p => set_paragraph_spacing_properties p none (some sp) none)
        (fun p => font_spacing_comm p a.font_name a.size a.bold a.italic
          a.underline none (some sp) none) doc _
  · intro h i
    rw [hnone h]
    exact hfmt i

/-- Witness for C6: the refinement at the fixture document with a
spacing-free heading-style action. -/
theorem set_heading_style_refines_set_font_witness :
    apply_set_heading_style_action fxDoc (get_document_analysis fxDoc)
        { level := 1, font_name := some "Impact", size := some 20,
          bold := some false }
      = apply_set_font_action fxDoc (get_document_analysis fxDoc)
          { scope := some ("headings_level_" ++ toString (1 : Int)),
            font_name := some "Impact", size := some 20, bold := some false,
            italic := none, underline := none } :=
  (set_heading_style_refines_set_font fxDoc (get_document_analysis fxDoc)
    { level := 1, font_name := some "Impact", size := some 20,
      bold := some false }).1 rfl

theorem cellTextVal_setCellText (c : Cell) (t : String) :
    cellTextVal (setCellText c t) = t := rfl

theorem getD_map_range {α : Type} (f : Nat → α) (n i : Nat) (d : α) (h : i < n) :
    ((List.range n).map f).getD i d = f i := by
  rw [List.getD_eq_getElem?_getD, List.getElem?_map, List.getElem?_range h]
  rfl

/-- Counterexample to C7 as stated: with `rows = 2, cols = 3` the
created table has only 2 rows, so `cell(2, 0)` does not exist (a Python
`IndexError`) and cannot hold `"Bob"`; the third data row was dropped. -/
theorem createTable_example_as_stated_fails :
    (add_table 2 3 (some fxData)).isSome = true ∧
    (add_table 2 3 (some fxData)).bind (fun t => cellText t 2 0) = none ∧
    (add_table 2 3 (some fxData)).map nRows = some 2 :=
  ⟨rfl, rfl, rfl⟩

/-- C7 (amended): `add_table` fails (returns `none`, no exception) when
`rows ≤ 0` or `cols ≤ 0`; for positive dimensions it returns a
`rows × cols` table in which every in-bounds cell `(i, j)` covered by
`data` holds the stringified value, cells without data stay empty, and
excess data rows/columns are silently dropped (creation still
succeeds); the concrete data example holds for the matching dimensions
`rows = 3, cols = 2`. -/
theorem createTable_population :
    (∀ (rows cols : Int) (data : Option (List (List String)))
        (style : Option String),
      rows ≤ 0 ∨ cols ≤ 0 → add_table rows cols data style = none) ∧
    (∀ (rows cols : Int) (data : List (List String)) (style : Option String),
      0 < rows → 0 < cols →
      ∃ t : Table, add_table rows cols (some data) style = some t ∧
        nRows t = rows.toNat ∧ nCols t = cols.toNat ∧
        ∀ i j : Nat, i < rows.toNat → j < cols.toNat →
          cellText t i j = some (if i < data.length ∧ j < (data.getD i []).length
            then (data.getD i []).getD j "" else "")) ∧
    ((add_table 3 2 (some fxData)).bind (fun t => cellText t 0 0) = some "Name" ∧
     (add_table 3 2 (some fxData)).bind (fun t => cellText t 1 1) = some "30" ∧
     (add_table 3 2 (some fxData)).bind (fun t => cellText t 2 0) = some "Bob") ∧
    (add_table 2 1 (some [["R1C1"], ["R2C1"], ["R3C1"]])).isSome = true := by
  refine ⟨?_, ?_, ⟨rfl, rfl, rfl⟩, rfl⟩
  · intro rows cols data style h
    have hneg : ¬ (rows > 0 ∧ cols > 0) := by omega
    simp [add_table, hneg]
  · intro rows cols data style hr hc
    have hpos : rows > 0 ∧ cols > 0 := ⟨hr, hc⟩
    obtain ⟨k, hk⟩ : ∃ k, rows.toNat = k + 1 := ⟨rows.toNat - 1, by omega⟩
    simp only [add_table, if_pos hpos, Option.getD_some]
    refine ⟨_, rfl, ?_, ?_, ?_⟩
    · simp [nRows]
    · simp [nCols, hk, List.range_succ_eq_map]
    · intro i j hi hj
      simp only [cellText, cellAt, nRows, nCols]
      split
      · rw [getD_map_range _ _ _ _ hi, getD_map_range _ _ _ _ hj]
        by_cases hd : i < data.length ∧ j < (data.getD i []).length
        · rw [if_pos hd, if_pos hd, cellTextVal_setCellText]
        · rw [if_neg hd, if_neg hd]
          rfl
      · rename_i hcon
        exfalso
        apply hcon
        constructor
        · simpa using hi
        · simpa [hk, List.range_succ_eq_map] using hj

/-- Witness for C7's amended theorem: failure at `rows = 0` and the
populated 1 × 1 table. -/
theorem createTable_population_witness :
    add_table 0 2 (some fxData) none = none ∧
    (∃ t : Table, add_table 1 1 (some fxData) none = some t ∧
      nRows t = (1 : Int).toNat ∧ nCols t = (1 : Int).toNat ∧
      ∀ i j : Nat, i < (1 : Int).toNat → j < (1 : Int).toNat →
        cellText t i j = some (if i < fxData.length ∧ j < (fxData.getD i []).length
          then (fxData.getD i []).getD j "" else "")) :=
  ⟨createTable_population.1 0 2 (some fxData) none (by omega),
   createTable_population.2.1 1 1 fxData none (by omega) (by omega)⟩

/-- C8: `merge_table_cells` succeeds only when
`0 ≤ startRow ≤ endRow < rows` and `0 ≤ startCol ≤ endCol < cols`; any
violation makes it return `False` without raising and without mutating
the table. -/
theorem mergeCells_bounds (t : Table) (sr sc er ec : Int) :
    ((merge_table_cells t sr sc er ec).1 = true →
      0 ≤ sr ∧ sr ≤ er ∧ er < (nRows t : Int) ∧
      0 ≤ sc ∧ sc ≤ ec ∧ ec < (nCols t : Int)) ∧
    (¬ (0 ≤ sr ∧ sr ≤ er ∧ er < (nRows t : Int) ∧
        0 ≤ sc ∧ sc ≤ ec ∧ ec < (nCols t : Int)) →
      merge_table_cells t sr sc er ec = (false, t)) := by
  constructor
  · intro h
    by_cases hb : 0 ≤ sr ∧ sr ≤ er ∧ er < (nRows t : Int) ∧
        0 ≤ sc ∧ sc ≤ ec ∧ ec < (nCols t : Int)
    · exact hb
    · rw [merge_table_cells, if_neg hb] at h
      simp at h
  · intro hb
    rw [merge_table_cells, if_neg hb]

/-- Witness for C8: an out-of-bounds merge region on the 2 × 2 fixture
table is rejected without mutation. -/
theorem mergeCells_bounds_witness :
    merge_table_cells fxTable 0 0 3 1 = (false, fxTable) :=
  (mergeCells_bounds fxTable 0 0 3 1).2 (by decide)

/-- With a nonempty find text and a present replacement,
`apply_find_and_replace_action` is the per-run text rewrite. -/
theorem apply_find_replace_eq (doc : List Paragraph) (a : FindReplaceAction)
    (f rep : String) (hf : a.find = some f) (hne : f ≠ "")
    (hrep : a.replace_with = some rep) :
    apply_find_and_replace_action doc a
      = doc.map (fun p => { p with runs := p.runs.map (fun r =>
          { r with text := findReplaceRunText f rep r.text }) }) := by
  simp [apply_find_and_replace_action, hf, hrep, truthyS, hne]

/-- C9: `find_and_replace` with empty (or absent) find text is a
document-wide no-op; with nonempty find text every run's text is
independently rewritten by the per-run case-insensitive literal
replacement while every other run attribute and the paragraph structure
are preserved; a document none of whose runs contains the find text is
left unchanged even when the concatenated paragraph text contains it
(matches never span run boundaries), as the split-run fixture shows;
and the fixture body's `"world"` is replaced case-insensitively. -/
theorem find_replace_per_run (doc : List Paragraph) (a : FindReplaceAction) :
    ((a.find = none ∨ a.find = some "") → apply_find_and_replace_action doc a = doc) ∧
    (∀ f rep : String, a.find = some f → f ≠ "" → a.replace_with = some rep →
      ((apply_find_and_replace_action doc a).length = doc.length ∧
       ∀ (i : Nat) (p : Paragraph), doc[i]? = some p →
         (apply_find_and_replace_action doc a)[i]? = some
           { p with runs := p.runs.map (fun r =>
               { r with text := findReplaceRunText f rep r.text }) })) ∧
    (∀ f rep : String, a.find = some f → a.replace_with = some rep →
      (∀ p ∈ doc, ∀ r ∈ p.runs, containsCI f.data r.text.data = false) →
      apply_find_and_replace_action doc a = doc) ∧
    (apply_find_and_replace_action fxSplitDoc
        { find := some "Hello", replace_with := some "X" } = fxSplitDoc ∧
     containsCI "Hello".data (paraText (fxSplitDoc.headD default)).data = true) ∧
    ((apply_find_and_replace_action fxDoc
        { find := some "WORLD", replace_with := some "there" }).map paraText
      = ["Doc", "Intro", "hello there"]) := by
  refine ⟨?_, ?_, ?_, by constructor <;> rfl, by rfl⟩
  · intro h
    rcases h with h | h <;> simp [apply_find_and_replace_action, h, truthyS]
  · intro f rep hf hne hrep
    rw [apply_find_replace_eq doc a f rep hf hne hrep]
    constructor
    · simp
    · intro i p hp
      simp [List.getElem?_map, hp]
  · intro f rep hf hrep hnone
    by_cases hne : f = ""
    · subst hne
      simp [apply_find_and_replace_action, hf, truthyS]
    · rw [apply_find_replace_eq doc a f rep hf hne hrep]
      have hmap : ∀ p ∈ doc,
          (fun p : Paragraph => { p with runs := p.runs.map (fun r =>
            { r with text := findReplaceRunText f rep r.text }) }) p = p := by
        intro p hpmem
        have hruns : p.runs.map (fun r =>
            { r with text := findReplaceRunText f rep r.text }) = p.runs := by
          have hrid : ∀ r ∈ p.runs,
              ({ r with text := findReplaceRunText f rep r.text } : Run) = r := by
            intro r hrmem
            have hc := hnone p hpmem r hrmem
            rw [findReplaceRunText, if_neg (by rw [hc]; simp)]
          calc p.runs.map (fun r => { r with text := findReplaceRunText f rep r.text })
              = p.runs.map id := List.map_congr_left hrid
            _ = p.runs := List.map_id p.runs
        show ({ p with runs := p.runs.map _ } : Paragraph) = p
        rw [hruns]
      calc doc.map (fun p : Paragraph => { p with runs := p.runs.map (fun r =>
            { r with text := findReplaceRunText f rep r.text }) })
          = doc.map id := List.map_congr_left hmap
        _ = doc := List.map_id doc

/-- Witness for C9: the empty-find no-op and the per-run rewrite at the
fixture document. -/
theorem find_replace_per_run_witness :
    apply_find_and_replace_action fxDoc { find := some "", replace_with := some "x" }
        = fxDoc ∧
    (apply_find_and_replace_action fxDoc
        { find := some "world", replace_with := some "there" })[2]? = some
      { fxBody with runs := fxBody.runs.map (fun r =>
          { r with text := findReplaceRunText "world" "there" r.text }) } :=
  ⟨(find_replace_per_run fxDoc { find := some "", replace_with := some "x" }).1
      (Or.inr rfl),
   ((find_replace_per_run fxDoc
      { find := some "world", replace_with := some "there" }).2.1 "world" "there"
      rfl (by decide) rfl).2 2 fxBody (by decide)⟩

theorem truthyB_eq_false {o : Option Bool} (h : o ≠ some true) :
    truthyB o = false := by
  cases o with
  | none => rfl
  | some b =>
    cases b with
    | true => exact absurd rfl h
    | false => rfl

theorem setCellAt_cellAt (t : Table) (i j : Nat) :
    setCellAt t i j (cellAt t i j) = t := by
  rw [setCellAt, cellAt]
  have hcells : modifyAt
      (fun row => modifyAt (fun _ => (t.cells.getD i []).getD j {}) row j)
      t.cells i = t.cells := by
    apply modifyAt_id_of
    intro x hx
    have hrow : t.cells.getD i [] = x := by
      rw [List.getD_eq_getElem?_getD, hx]
      rfl
    rw [hrow]
    apply modifyAt_id_of
    intro y hy
    rw [List.getD_eq_getElem?_getD, hy]
    rfl
  rw [hcells]

/-- C10: `format_table_cell` on an in-bounds cell with tri-state flags
that are absent or explicitly `False` and no other formatting arguments
reports success yet leaves the table entirely unchanged: the guard
`any([font_name, font_size, bold, italic, underline])` treats an
explicit `False` as falsy, so the font-application step is skipped and
the explicit `False` is never written to the cell's runs. -/
theorem format_cell_false_flags_noop (t : Table) (row col : Int)
    (hr0 : 0 ≤ row) (hr1 : row < (nRows t : Int))
    (hc0 : 0 ≤ col) (hc1 : col < (nCols t : Int))
    (b i u : Option Bool)
    (hb : b ≠ some true) (hi : i ≠ some true) (hu : u ≠ some true) :
    format_table_cell t row col none none none b i u none none = (true, t) := by
  have hbnd : ¬ ((nRows t : Int) ≤ row ∨ (nCols t : Int) ≤ col ∨
      row < 0 ∨ col < 0) := by omega
  rw [format_table_cell, if_neg hbnd]
  simp only [Option.isSome_none, Bool.false_eq_true, if_false, truthyS, truthyQ,
    truthyB_eq_false hb, truthyB_eq_false hi, truthyB_eq_false hu,
    Bool.or_self, Bool.or_false, Bool.false_or]
  rw [setCellAt_cellAt]

/-- Witness for C10: `bold = False` alone on the 2 × 2 fixture table. -/
theorem format_cell_false_flags_noop_witness :
    format_table_cell fxTable 0 1 none none none (some false) none none none none
      = (true, fxTable) :=
  format_cell_false_flags_noop fxTable 0 1 (by decide) (by decide) (by decide)
    (by decide) (some false) none none (by decide) (by decide) (by decide)

end SmartDoc
